import Mathlib

/-!
Verification of the qastor notification bot (pasqal-io/github-bot).

The development shallowly embeds the pure logic of the Rust sources:
  - `src/config.rs` / `src/main.rs`: duration shorthand parsing
    (`Config::deserialize_update_frequency`), project-URL parsing
    (`Project::deserialize`), secret merging (`main`, the `QASTOR_HOOK*`
    loop) and secret-blob loading;
  - `src/main.rs` (`per_project`): the pending-review filter, the
    issue/PR de-duplication, message construction and the send loop;
  - `src/slack.rs`: link formatting.

External collaborators (the `url` crate's URL parser, `serde_json`, the
GitHub API client, the HTTP transport, chrono's clock) are modelled as
parameters or as pre-digested inputs; the Rust standard `HashMap` is
modelled as an association list whose iteration order is an unspecified
permutation of its entries.
-/

namespace Qastor

/-! ## Duration shorthand parser (`Config::deserialize_update_frequency`) -/

/-- The unit character class of the regex `([[:digit:]]+) *([hmsd])`. -/
def unitChars : List Char := ['h', 'm', 's', 'd']

/-- Leftmost match of the regex `([[:digit:]]+) *([hmsd])` over a character
list: at the first position where a maximal digit run, optionally followed
by spaces, is followed by one of the unit letters, return the digit run and
the unit letter.  (Backtracking inside the digit or space run never helps
for this pattern, so leftmost-first search reduces to this scan.) -/
def findFreqMatch : List Char → Option (List Char × Char)
  | [] => none
  | c :: rest =>
    if c.isDigit then
      let ds := List.takeWhile Char.isDigit (c :: rest)
      let after := List.dropWhile Char.isDigit (c :: rest)
      let afterSpaces := List.dropWhile (fun ch => ch = ' ') after
      match afterSpaces with
      | u :: _ => if u ∈ unitChars then some (ds, u) else findFreqMatch rest
      | [] => findFreqMatch rest
    else findFreqMatch rest

/-- Numeric value of a digit run (the regex guarantees only digits). -/
def digitsToNat (ds : List Char) : Nat :=
  ds.foldl (fun acc c => 10 * acc + (c.toNat - '0'.toNat)) 0

/-- Largest value accepted by Rust's `str::parse::<i64>` for an unsigned
digit run (`i64::MAX`). -/
def i64Max : Nat := 9223372036854775807

/-- Largest whole number of seconds representable by `chrono::Duration`
(`i64::MAX` milliseconds, truncated to seconds); the `Duration::days` /
`hours` / `minutes` / `seconds` constructors panic beyond it. -/
def chronoMaxSecs : Int := 9223372036854775

/-- Seconds per unit letter, as in the `match unit` arms of
`deserialize_update_frequency`. -/
def unitSeconds : Char → Int
  | 'd' => 86400
  | 'h' => 3600
  | 'm' => 60
  | 's' => 1
  | _ => 0

/-- Outcome of `Config::deserialize_update_frequency`: a duration (in
seconds), a serde format error, or a panic inside a chrono constructor. -/
inductive FreqResult where
  | ok (seconds : Int)
  | formatErr
  | panicked
deriving DecidableEq, Repr

/-- Embedding of `Config::deserialize_update_frequency` (src/config.rs):
search the string with the regex `([[:digit:]]+) *([hmsd])`; on no match,
a format error; otherwise parse the digit run as an `i64` (format error on
overflow) and scale by the unit (chrono panics when the scaled duration
exceeds its range). -/
def deserialize_update_frequency (source : String) : FreqResult :=
  match findFreqMatch source.data with
  | none => .formatErr
  | some (ds, u) =>
    let n := digitsToNat ds
    if n ≤ i64Max then
      let secs : Int := (n : Int) * unitSeconds u
      if secs ≤ chronoMaxSecs then .ok secs else .panicked
    else .formatErr

/-! ## Project URL parsing (`Project::deserialize`) -/

/-- The view of a parsed URL that `Project::deserialize` consumes: the raw
text and the result of the `url` crate's `path_segments()` (`none` for
cannot-be-a-base URLs; otherwise the path split on `/`, segments possibly
empty). -/
structure UrlPath where
  raw : String
  pathSegments : Option (List String)
deriving DecidableEq, Repr

/-- Error cases of `Project::deserialize`, by the missing piece named in
the serde error message. -/
inductive ProjectError where
  | missingPath
  | missingOwner
  | missingProject
deriving DecidableEq, Repr

/-- Configuration of a single project (struct `Project`): the full URL
(display only), the owner, and the repository name (`RepoName` is a plain
newtype over `String`). -/
structure Project where
  url : String
  owner : String
  repo : String
deriving DecidableEq, Repr

/-- Embedding of `impl Deserialize for Project` (src/config.rs): require
`path_segments()` to be present, take the first segment as owner and the
second as repository name, ignore the rest.  No emptiness check is applied
to the segments. -/
def Project.deserialize (u : UrlPath) : Except ProjectError Project :=
  match u.pathSegments with
  | none => .error .missingPath
  | some [] => .error .missingOwner
  | some [_] => .error .missingProject
  | some (owner :: projectName :: _) => .ok ⟨u.raw, owner, projectName⟩

/-! ## Secret resolution (`main`, src/main.rs lines 263-299) -/

/-- Opaque parsed URL produced by the external `url` crate; compared (as a
`HashMap` key) by its serialized form. -/
structure Url where
  raw : String
deriving DecidableEq, Repr

/-- A capability to post messages in one Slack room (struct `SlackHook`). -/
structure SlackHook where
  hook : Url
deriving DecidableEq, Repr

/-- The secret store `Secrets { repo_to_hook: HashMap<Url, Vec<SlackHook>> }`,
modelled by its lookup function (`get`): `none` for an absent key. -/
def SecretStore := Url → Option (List SlackHook)

/-- The store deserialized from the JSON text `\x7b\x7d`: no entries. -/
def emptySecrets : SecretStore := fun _ => none

/-- Embedding of `secrets.repo_to_hook.entry(repo).or_default().push(hook)`:
append the hook to the repo's sequence, creating an empty sequence first when
the key is absent. -/
def pushHook (store : SecretStore) (repo : Url) (hook : SlackHook) : SecretStore :=
  fun u => if u = repo then some ((store repo).getD [] ++ [hook]) else store u

/-- Split a character list at its last `=`: greedy group 1 of the regex
`(.*)=(.*)` within one line. -/
def splitLastEq : List Char → Option (List Char × List Char)
  | [] => none
  | c :: rest =>
    match splitLastEq rest with
    | some (l, r) => some (c :: l, r)
    | none => if c = '=' then some ([], rest) else none

/-- Split a character list into its newline-separated lines (the regex
metacharacter `.` does not cross newlines). -/
def splitLines : List Char → List (List Char)
  | [] => [[]]
  | c :: rest =>
    if c = '\n' then [] :: splitLines rest
    else
      match splitLines rest with
      | l :: ls => (c :: l) :: ls
      | [] => [[c]]

/-- First line that the pattern matches, split at its last `=`. -/
def findEqLine : List (List Char) → Option (String × String)
  | [] => none
  | l :: ls =>
    match splitLastEq l with
    | some (a, b) => some (String.mk a, String.mk b)
    | none => findEqLine ls

/-- Leftmost-first match of the greedy regex `(.*)=(.*)` used on
`QASTOR_HOOK*` values: the match lands on the first line containing an `=`;
group 1 extends greedily to that line's last `=`, group 2 is the rest of the
line. -/
def regexSplitEq (s : String) : Option (String × String) :=
  findEqLine (splitLines s.data)

/-- Embedding of one iteration of the `QASTOR_HOOK*` loop in `main`
(src/main.rs lines 272-298): split the variable's value with the regex
`(.*)=(.*)`; parse both captures as URLs (`parseUrl` stands for
`url::Url::parse`, an external crate); on any failure emit a warning (the
returned flag) and continue with the store unchanged; on success append the
hook to the repo's sequence. -/
def processHookVar (parseUrl : String → Option Url) (store : SecretStore)
    (value : String) : SecretStore × Bool :=
  match regexSplitEq value with
  | none => (store, true)
  | some (r, h) =>
    match parseUrl r with
    | none => (store, true)
    | some repo =>
      match parseUrl h with
      | none => (store, true)
      | some hookUrl => (pushHook store repo ⟨hookUrl⟩, false)

/-- The whole `QASTOR_HOOK*` loop, folded over the values of the matching
environment variables in iteration order. -/
def processHookVars (parseUrl : String → Option Url) (store : SecretStore) :
    List String → SecretStore
  | [] => store
  | v :: rest => processHookVars parseUrl (processHookVar parseUrl store v).1 rest

/-- Embedding of the `QASTOR_SECRETS` bootstrap (src/main.rs lines 266-268):
an absent variable is replaced by the literal text `\x7b\x7d` before
deserialization (`parseSecrets` stands for `serde_json::from_str::<Secrets>`,
an external crate); a failing deserialization aborts startup with an error. -/
def loadSecrets (parseSecrets : String → Option SecretStore)
    (envVar : Option String) : Except Unit SecretStore :=
  match parseSecrets (envVar.getD "\x7b\x7d") with
  | some s => .ok s
  | none => .error ()

/-! ## The notification pipeline (`per_project`, src/main.rs) -/

/-- A requested reviewer (octocrab user record, of which only `login` is
used). -/
structure Reviewer where
  login : String
deriving DecidableEq, Repr

/-- An open pull request as fetched from the API collaborator: the fields
`per_project` reads.  `html_url` and `title` are optional in the upstream
record. -/
structure PullRequest where
  id : Nat
  requested_reviewers : Option (List Reviewer)
  html_url : Option String
  title : Option String
deriving DecidableEq, Repr

/-- A recently-updated issue as fetched from the API collaborator: the
fields `per_project` reads.  `updated_at_text` is the timestamp already
rendered with the fixed display format `%d/%m/%Y %H:%M`. -/
structure Issue where
  id : Nat
  html_url : String
  title : String
  user_login : String
  updated_at_text : String
deriving DecidableEq, Repr

/-- The `filter_map` over fetched pull requests: keep `(pr.id, pr)` exactly
when `requested_reviewers` is present and non-empty. -/
def pendingPairs (requests : List PullRequest) : List (Nat × PullRequest) :=
  requests.filterMap fun pr =>
    match pr.requested_reviewers with
    | some reviewers => if reviewers.isEmpty then none else some (pr.id, pr)
    | none => none

/-- `HashMap` insertion: replace the value when the key is present, add the
entry otherwise. -/
def insertPair (m : List (Nat × PullRequest)) (kv : Nat × PullRequest) :
    List (Nat × PullRequest) :=
  if m.any fun e => e.1 = kv.1 then
    m.map fun e => if e.1 = kv.1 then kv else e
  else m ++ [kv]

/-- `collect::<HashMap<_, _>>()` over key/value pairs: fold insertion into an
association list.  Its entry list is a set of entries; the map's iteration
order is an unspecified permutation of it. -/
def collectMap (l : List (Nat × PullRequest)) : List (Nat × PullRequest) :=
  l.foldl insertPair []

/-- `HashMap::contains_key`. -/
def containsKey (m : List (Nat × PullRequest)) (k : Nat) : Bool :=
  m.any fun e => e.1 = k

/-- The `pending_requests` map of `per_project`. -/
def pending_requests (requests : List PullRequest) : List (Nat × PullRequest) :=
  collectMap (pendingPairs requests)

/-- The `pending_issues` list of `per_project`: fetched issues whose id is
not a key of the pending-request map, in fetched order. -/
def pending_issues (issues : List Issue) (requests : List PullRequest) :
    List Issue :=
  issues.filter fun issue => !containsKey (pending_requests requests) issue.id

/-! ## Message formatting (`slack.rs` and the message loops) -/

/-- HTML-entity escaping of one character of link text
(`SlackMessage::link`). -/
def escapeChar (c : Char) : String :=
  match c with
  | '&' => "&amp;"
  | '<' => "&lt;"
  | '>' => "&gt;"
  | c => String.mk [c]

/-- The escaping loop of `SlackMessage::link`. -/
def escapeText (t : String) : String :=
  t.data.foldl (fun acc c => acc ++ escapeChar c) ""

/-- Embedding of `slack::link` / `SlackMessage::link`: a bare url renders as
markdown, a url with text renders in Slack's angled form with escaped
text. -/
def link (url : String) (text : Option String) : String :=
  match text with
  | none => "[" ++ url ++ "](" ++ url ++ ")"
  | some t => "<" ++ url ++ "|" ++ escapeText t ++ ">"

/-- Modelled from the spec: `slack::Section`, referenced by `main.rs` but
absent from `src/` — a notification message is a title plus an append-only
ordered sequence of fields (§3 NotificationMessage, §4.5 buildMessage). -/
structure Section where
  title : String
  fields : List String
deriving DecidableEq, Repr

/-- Modelled from the spec: `Section::new`. -/
def Section.new (title : String) : Section := ⟨title, []⟩

/-- Modelled from the spec: `Section::append_fields` (append-only). -/
def Section.append_fields (s : Section) (fs : List String) : Section :=
  ⟨s.title, s.fields ++ fs⟩

/-- Append one two-field row per pair, in order. -/
def appendPairs (s : Section) (ps : List (String × String)) : Section :=
  ps.foldl (fun acc p => acc.append_fields [p.1, p.2]) s

/-- One row of the PR message: skipped (with a logged error) when `html_url`
or `title` is absent; otherwise the link and the comma-joined reviewer
logins.  The source panics when `requested_reviewers` is `none`, a branch
that is unreachable for values of the pending map (they passed the pending
filter); it is modelled by `getD []`. -/
def renderPR (pull : PullRequest) : Option (String × String) :=
  match pull.html_url with
  | none => none
  | some url =>
    match pull.title with
    | none => none
    | some title =>
      some (link url (some title),
        String.intercalate ", " ((pull.requested_reviewers.getD []).map Reviewer.login))

/-- The rows of the PR message for a given iteration order `vals` of the
pending map (`pending_requests.into_values()`). -/
def prFieldPairs (vals : List (Nat × PullRequest)) : List (String × String) :=
  vals.filterMap fun kv => renderPR kv.2

/-- One row of the issues message. -/
def renderIssue (issue : Issue) : String × String :=
  (link issue.html_url (some issue.title),
   issue.user_login ++ " on " ++ issue.updated_at_text)

/-- The rows of the issues message, in `pending_issues` order. -/
def issueFieldPairs (issues : List Issue) (requests : List PullRequest) :
    List (String × String) :=
  (pending_issues issues requests).map renderIssue

/-- The PR message of `per_project`, for iteration order `vals`. -/
def buildPrMessage (projectUrl repoName : String)
    (vals : List (Nat × PullRequest)) : Section :=
  appendPairs
    ((Section.new ("PRs of repo " ++ link projectUrl (some repoName) ++
        " waiting for reviews")).append_fields ["*Request*", "*Reviewer*"])
    (prFieldPairs vals)

/-- The issues message of `per_project`. -/
def buildIssueMessage (projectUrl repoName sinceText : String)
    (issues : List Issue) (requests : List PullRequest) : Section :=
  appendPairs
    ((Section.new ("Issues of repo " ++ link projectUrl (some repoName) ++
        " updated since " ++ sinceText)).append_fields ["*Issue*", "*Updater*"])
    (issueFieldPairs issues requests)

/-! ## Delivery fan-out and the project loop -/

/-- Embedding of the send loop `for hook in slack_hooks { msg.send(..)? }`:
`send` reports per-target success; the result is the trace of targets for
which `send` was invoked together with the loop's outcome (`false` means a
send failed and the `?` operator returned early from `per_project` with the
error). -/
def sendAllTrace (send : Url → Bool) : List Url → List Url × Bool
  | [] => ([], true)
  | h :: rest =>
    if send h then
      let r := sendAllTrace send rest
      (h :: r.1, r.2)
    else ([h], false)

/-- Embedding of the project loop in `main` (src/main.rs lines 308-316):
every project is attempted in order; a failing project is logged with a
warning (its flag is `false`) and the loop continues. -/
def processProjects (run : Project → Bool) : List Project → List (Project × Bool)
  | [] => []
  | p :: ps => (p, run p) :: processProjects run ps

/-! ## Helper lemmas -/

/-- A list without `=` has no last-`=` split. -/
theorem splitLastEq_of_not_mem (l : List Char) (h : '=' ∉ l) :
    splitLastEq l = none := by
  induction l with
  | nil => rfl
  | cons c rest ih =>
    have hc : c ≠ '=' := fun hc => h (hc ▸ List.mem_cons_self c rest)
    have hr : '=' ∉ rest := fun hm => h (List.mem_cons_of_mem c hm)
    simp [splitLastEq, ih hr, hc]

/-- Splitting at the last `=` of `a ++ '=' :: b` when `b` has none. -/
theorem splitLastEq_append (a b : List Char) (hb : '=' ∉ b) :
    splitLastEq (a ++ '=' :: b) = some (a, b) := by
  induction a with
  | nil => simp [splitLastEq, splitLastEq_of_not_mem b hb]
  | cons c rest ih => simp [splitLastEq, ih]

/-- A newline-free list is a single line. -/
theorem splitLines_of_not_mem (l : List Char) (h : '\n' ∉ l) :
    splitLines l = [l] := by
  induction l with
  | nil => rfl
  | cons c rest ih =>
    have hc : c ≠ '\n' := fun hc => h (hc ▸ List.mem_cons_self c rest)
    have hr : '\n' ∉ rest := fun hm => h (List.mem_cons_of_mem c hm)
    simp [splitLines, hc, ih hr]

/-- A key present before a `HashMap` insertion, or equal to the inserted
key, is present afterwards. -/
theorem containsKey_insertPair_of (m : List (Nat × PullRequest))
    (kv : Nat × PullRequest) (k : Nat)
    (h : containsKey m k = true ∨ kv.1 = k) :
    containsKey (insertPair m kv) k = true := by
  unfold containsKey insertPair
  by_cases hmem : (m.any fun e => e.1 = kv.1) = true
  · rw [if_pos hmem]
    obtain ⟨e0, he0, hk0⟩ := List.any_eq_true.1 hmem
    rcases h with hck | hkk
    · obtain ⟨e, he, hek⟩ := List.any_eq_true.1 hck
      refine List.any_eq_true.2
        ⟨if e.1 = kv.1 then kv else e, List.mem_map.2 ⟨e, he, rfl⟩, ?_⟩
      have hek' : e.1 = k := of_decide_eq_true hek
      by_cases hcase : e.1 = kv.1
      · rw [if_pos hcase]
        have hkk : kv.1 = k := by rw [← hcase]; exact hek'
        simp [hkk]
      · rw [if_neg hcase]
        simp [hek']
    · refine List.any_eq_true.2
        ⟨kv, List.mem_map.2 ⟨e0, he0, by simp [of_decide_eq_true hk0]⟩, by simp [hkk]⟩
  · rw [if_neg hmem]
    rcases h with hck | hkk
    · simp only [List.any_append, Bool.or_eq_true]
      exact Or.inl hck
    · simp [List.any_append, hkk]

/-- A key of the accumulator, or carried by one of the inserted pairs, is a
key of the folded `HashMap`. -/
theorem containsKey_foldl_of (l : List (Nat × PullRequest))
    (acc : List (Nat × PullRequest)) (k : Nat)
    (h : containsKey acc k = true ∨ ∃ e, e ∈ l ∧ e.1 = k) :
    containsKey (l.foldl insertPair acc) k = true := by
  induction l generalizing acc with
  | nil =>
    rcases h with h | ⟨e, he, _⟩
    · exact h
    · simp at he
  | cons kv rest ih =>
    simp only [List.foldl_cons]
    apply ih
    rcases h with hacc | ⟨e, he, hek⟩
    · exact Or.inl (containsKey_insertPair_of _ _ _ (Or.inl hacc))
    · rcases List.mem_cons.1 he with rfl | hmem
      · exact Or.inl (containsKey_insertPair_of _ _ _ (Or.inr hek))
      · exact Or.inr ⟨e, hmem, hek⟩

/-- Values after a `HashMap` insertion come from the old values or the
inserted pair. -/
theorem mem_values_insertPair (m : List (Nat × PullRequest))
    (kv : Nat × PullRequest) (x : PullRequest)
    (hx : x ∈ (insertPair m kv).map Prod.snd) :
    x ∈ m.map Prod.snd ∨ x = kv.2 := by
  unfold insertPair at hx
  by_cases hmem : (m.any fun e => e.1 = kv.1) = true
  · rw [if_pos hmem, List.map_map] at hx
    obtain ⟨e, he, hex⟩ := List.mem_map.1 hx
    by_cases hk : e.1 = kv.1
    · right
      rw [← hex]
      simp [Function.comp, hk]
    · left
      exact List.mem_map.2 ⟨e, he, by simpa [Function.comp, hk] using hex⟩
  · rw [if_neg hmem, List.map_append] at hx
    rcases List.mem_append.1 hx with h | h
    · exact Or.inl h
    · right
      simpa using h

/-- Values of the folded `HashMap` come from the accumulator's values or the
inserted pairs' values. -/
theorem mem_values_foldl (l : List (Nat × PullRequest))
    (acc : List (Nat × PullRequest)) (x : PullRequest)
    (hx : x ∈ (l.foldl insertPair acc).map Prod.snd) :
    x ∈ acc.map Prod.snd ∨ x ∈ l.map Prod.snd := by
  induction l generalizing acc with
  | nil => exact Or.inl hx
  | cons kv rest ih =>
    simp only [List.foldl_cons] at hx
    rcases ih (insertPair acc kv) hx with h | h
    · rcases mem_values_insertPair acc kv x h with h' | h'
      · exact Or.inl h'
      · exact Or.inr (by simp [h'])
    · refine Or.inr ?_
      obtain ⟨e, he, hex⟩ := List.mem_map.1 h
      exact List.mem_map.2 ⟨e, List.mem_cons_of_mem kv he, hex⟩

/-- The project loop visits every configured project, in order. -/
theorem processProjects_fst (run : Project → Bool) (ps : List Project) :
    (processProjects run ps).map Prod.fst = ps := by
  induction ps with
  | nil => rfl
  | cons p rest ih => simp [processProjects, ih]

/-! ## Claim C5: duration shorthand parsing -/

/-- C5 counterexample: the string `9999999999999999999s` contains a digit
run followed by the unit letter `s` (second conjunct), so the claim demands
a duration of 9999999999999999999 seconds; the code instead fails with a
format error because `str::parse::<i64>` overflows. -/
theorem update_frequency_overflow :
    deserialize_update_frequency "9999999999999999999s" = FreqResult.formatErr
  ∧ findFreqMatch "9999999999999999999s".data
      = some ("9999999999999999999".data, 's')
  ∧ FreqResult.formatErr ≠ FreqResult.ok 9999999999999999999 := by
  refine ⟨rfl, rfl, by decide⟩

/-- C5 amended: for every string whose leftmost `digits (spaces) unit`
match has a digit run fitting in an `i64` and a scaled duration within
chrono's range, parsing returns exactly that number of
days/hours/minutes/seconds; a string with no match fails with a format
error, and a matching string whose digit run overflows `i64` also fails
with a format error. -/
theorem update_frequency_correct (s : String) :
    (∀ ds u, findFreqMatch s.data = some (ds, u) →
        digitsToNat ds ≤ i64Max →
        (digitsToNat ds : Int) * unitSeconds u ≤ chronoMaxSecs →
        deserialize_update_frequency s
          = FreqResult.ok ((digitsToNat ds : Int) * unitSeconds u))
  ∧ (findFreqMatch s.data = none →
        deserialize_update_frequency s = FreqResult.formatErr)
  ∧ (∀ ds u, findFreqMatch s.data = some (ds, u) → i64Max < digitsToNat ds →
        deserialize_update_frequency s = FreqResult.formatErr) := by
  refine ⟨?_, ?_, ?_⟩
  · intro ds u hm hfit hrange
    simp [deserialize_update_frequency, hm, hfit, hrange]
  · intro hm
    simp [deserialize_update_frequency, hm]
  · intro ds u hm hover
    simp [deserialize_update_frequency, hm, Nat.not_le.2 hover]

/-- Witness for C5's amended theorem at the config shorthand `15m`. -/
theorem update_frequency_correct_witness :
    deserialize_update_frequency "15m" = FreqResult.ok 900 := by
  have h := (update_frequency_correct "15m").1 ['1', '5'] 'm'
    (by decide) (by decide) (by decide)
  simpa using h

/-! ## Claim C6: project URL parsing -/

/-- C6 counterexample: the URL `https://github.com//x` has path segments
`["", "x"]`, only one of them non-empty, so the claim demands a parse
failure; the code accepts it with the empty string as owner. -/
theorem project_parse_empty_owner :
    Project.deserialize ⟨"https://github.com//x", some ["", "x"]⟩
      = Except.ok ⟨"https://github.com//x", "", "x"⟩
  ∧ ((["", "x"].filter fun s => !s.isEmpty).length < 2) := by
  refine ⟨rfl, by decide⟩

/-- C6 amended: for every URL whose path splits into at least two segments
(segments may be empty — no non-emptiness check is applied), parsing yields
owner = first segment and name = second segment with extras ignored; a URL
with no path fails citing the missing path, an empty segment list fails
citing the missing owner, and a single segment fails citing the missing
project. -/
theorem project_parse_correct (raw : String) :
    (∀ (a b : String) (rest : List String),
        Project.deserialize ⟨raw, some (a :: b :: rest)⟩ = Except.ok ⟨raw, a, b⟩)
  ∧ Project.deserialize ⟨raw, none⟩ = Except.error .missingPath
  ∧ Project.deserialize ⟨raw, some []⟩ = Except.error .missingOwner
  ∧ (∀ a, Project.deserialize ⟨raw, some [a]⟩ = Except.error .missingProject) := by
  exact ⟨fun a b rest => rfl, rfl, rfl, fun a => rfl⟩

/-! ## Claim C1: issue/PR de-duplication -/

/-- C1: an issue whose identifier equals the identifier of some pending pull
request (one with a non-empty requested-reviewers list) is removed from the
`pending_issues` list, which is exactly the list rendered into the issues
message — it appears only in the PR section. -/
theorem issue_dedup (issues : List Issue) (requests : List PullRequest)
    (issue : Issue) (pr : PullRequest) (hpr : pr ∈ requests)
    (hrev : ∃ rs, pr.requested_reviewers = some rs ∧ rs.isEmpty = false)
    (hid : pr.id = issue.id) :
    issue ∉ pending_issues issues requests := by
  intro hmem
  obtain ⟨rs, hrs, hne⟩ := hrev
  have h1 : (pr.id, pr) ∈ pendingPairs requests :=
    List.mem_filterMap.2 ⟨pr, hpr, by simp [hrs, hne]⟩
  have h2 : containsKey (pending_requests requests) issue.id = true := by
    unfold pending_requests collectMap
    exact containsKey_foldl_of _ _ _ (Or.inr ⟨(pr.id, pr), h1, hid⟩)
  have h3 := (List.mem_filter.1 hmem).2
  rw [h2] at h3
  simp at h3

/-- Witness for C1: a pending PR and an issue with the same identifier; the
issue is excluded from the issues list. -/
theorem issue_dedup_witness :
    (⟨1, "https://i", "Fix bug", "alice", "01/01/2024 10:00"⟩ : Issue) ∉
      pending_issues [⟨1, "https://i", "Fix bug", "alice", "01/01/2024 10:00"⟩]
        [⟨1, some [⟨"alice"⟩], some "https://p", some "Fix bug"⟩] :=
  issue_dedup _ _ _ ⟨1, some [⟨"alice"⟩], some "https://p", some "Fix bug"⟩
    (by decide) ⟨[⟨"alice"⟩], rfl, rfl⟩ rfl

/-! ## Claim C2: pull requests without pending reviewers are dropped -/

/-- C2: a fetched pull request whose requested-reviewers list is absent or
empty is a value of the pending map under no admissible iteration order, so
it contributes no row to the PR message; and every row of the issues message
is rendered from a fetched issue record, never from a pull-request
record. -/
theorem no_reviewer_pr_hidden (issues : List Issue) (requests : List PullRequest)
    (pr : PullRequest) (vals : List (Nat × PullRequest))
    (hrev : pr.requested_reviewers = none ∨ pr.requested_reviewers = some [])
    (hperm : List.Perm (pending_requests requests) vals) :
    pr ∉ vals.map Prod.snd
  ∧ ∀ issue ∈ pending_issues issues requests, issue ∈ issues := by
  constructor
  · intro hmem
    have hmem' : pr ∈ (pending_requests requests).map Prod.snd :=
      ((hperm.map Prod.snd).mem_iff).2 hmem
    have h2 := mem_values_foldl (pendingPairs requests) [] pr hmem'
    rcases h2 with h | h
    · simp at h
    · obtain ⟨kv, hkv, hsnd⟩ := List.mem_map.1 h
      obtain ⟨pr', hpr', hf⟩ := List.mem_filterMap.1 hkv
      rcases hcase : pr'.requested_reviewers with _ | rs
      · rw [hcase] at hf
        simp at hf
      · rw [hcase] at hf
        by_cases hne : rs.isEmpty
        · simp [hne] at hf
        · simp only [hne, Bool.false_eq_true, if_false, Option.some.injEq] at hf
          have hpp : pr' = pr := by rw [← hsnd, ← hf]
          rw [hpp] at hcase
          rcases hrev with h0 | h0
          · rw [h0] at hcase
            exact Option.noConfusion hcase
          · rw [h0] at hcase
            have hrs : rs = [] := (Option.some.inj hcase).symm
            rw [hrs] at hne
            simp at hne
  · intro issue hmem
    exact (List.mem_filter.1 hmem).1

/-- Witness for C2: a PR with an empty reviewer list produces no pending
entry (the pending map of the one-PR fetch is empty). -/
theorem no_reviewer_pr_hidden_witness :
    (⟨7, some [], some "https://p", some "T"⟩ : PullRequest) ∉
      List.map Prod.snd (pending_requests [⟨7, some [], some "https://p", some "T"⟩]) :=
  (no_reviewer_pr_hidden [] [⟨7, some [], some "https://p", some "T"⟩]
    ⟨7, some [], some "https://p", some "T"⟩
    (pending_requests [⟨7, some [], some "https://p", some "T"⟩])
    (Or.inr rfl) (List.Perm.refl _)).1

/-! ## Claim C3: send failure handling -/

/-- C3 counterexample: with two resolved targets and a send that fails on
the first, the send loop invokes `send` only for the first target — the
remaining target is never attempted (the `?` operator returns early) — and
the failure is the loop's outcome. -/
theorem send_loop_early_return :
    (sendAllTrace (fun u => if u = ⟨"https://hooks/t1"⟩ then false else true)
        [⟨"https://hooks/t1"⟩, ⟨"https://hooks/t2"⟩]).1 = [⟨"https://hooks/t1"⟩]
  ∧ (⟨"https://hooks/t2"⟩ : Url) ∉
      (sendAllTrace (fun u => if u = ⟨"https://hooks/t1"⟩ then false else true)
        [⟨"https://hooks/t1"⟩, ⟨"https://hooks/t2"⟩]).1
  ∧ (sendAllTrace (fun u => if u = ⟨"https://hooks/t1"⟩ then false else true)
        [⟨"https://hooks/t1"⟩, ⟨"https://hooks/t2"⟩]).2 = false := by
  refine ⟨rfl, by decide, rfl⟩

/-- C3 amended: when a send to one target fails, the loop stops there — the
targets after the first failing one are not attempted and the failure is
surfaced as the repository's error — while the project loop in `main` still
attempts every other repository. -/
theorem send_failure_aborts_rest (send : Url → Bool) (pre post : List Url)
    (h : Url) (hpre : ∀ u ∈ pre, send u = true) (hfail : send h = false) :
    sendAllTrace send (pre ++ h :: post) = (pre ++ [h], false)
  ∧ ∀ (run : Project → Bool) (projects : List Project),
      (processProjects run projects).map Prod.fst = projects := by
  refine ⟨?_, fun run projects => processProjects_fst run projects⟩
  induction pre with
  | nil => simp [sendAllTrace, hfail]
  | cons u us ih =>
    have hu : send u = true := hpre u (List.mem_cons_self u us)
    have ih' := ih fun x hx => hpre x (List.mem_cons_of_mem u hx)
    simp [sendAllTrace, hu, ih']

/-- Witness for C3's amended theorem: targets `a`, `b`, `c` with `b`
failing; only `a` and `b` are attempted and the loop reports failure. -/
theorem send_failure_aborts_rest_witness :
    sendAllTrace (fun u => if u = ⟨"https://hooks/b"⟩ then false else true)
        ([⟨"https://hooks/a"⟩] ++ ⟨"https://hooks/b"⟩ :: [⟨"https://hooks/c"⟩])
      = ([⟨"https://hooks/a"⟩, ⟨"https://hooks/b"⟩], false) :=
  (send_failure_aborts_rest
    (fun u => if u = ⟨"https://hooks/b"⟩ then false else true)
    [⟨"https://hooks/a"⟩] [⟨"https://hooks/c"⟩] ⟨"https://hooks/b"⟩
    (by decide) (by decide)).1

/-! ## Claim C4: field order within the messages -/

/-- C4 counterexample: two pending PRs fetched in the order id 1, id 2; the
reversed entry list is an admissible iteration order of the pending map (it
is a permutation of its entries), and under it the PR message's field pairs
differ from the pairs in API order — the hash map imposes no order, so the
claim fails for the PR message. -/
theorem pr_message_order_counterexample :
    List.Perm
      (pending_requests
        [⟨1, some [⟨"alice"⟩], some "https://p1", some "Fix bug"⟩,
         ⟨2, some [⟨"bob"⟩], some "https://p2", some "Other"⟩])
      [(2, ⟨2, some [⟨"bob"⟩], some "https://p2", some "Other"⟩),
       (1, ⟨1, some [⟨"alice"⟩], some "https://p1", some "Fix bug"⟩)]
  ∧ prFieldPairs
      [(2, ⟨2, some [⟨"bob"⟩], some "https://p2", some "Other"⟩),
       (1, ⟨1, some [⟨"alice"⟩], some "https://p1", some "Fix bug"⟩)]
    ≠ prFieldPairs
      (pendingPairs
        [⟨1, some [⟨"alice"⟩], some "https://p1", some "Fix bug"⟩,
         ⟨2, some [⟨"bob"⟩], some "https://p2", some "Other"⟩]) := by
  refine ⟨by decide, by decide⟩

/-- C4 amended: the issues message preserves the API order — the displayed
issues are an order-preserving sublist of the fetched list and its field
pairs follow that list — while the PR message's field pairs are those of the
pending map in an unspecified iteration order: any admissible order yields a
permutation of the same pairs, not necessarily the API order. -/
theorem message_field_order (issues : List Issue) (requests : List PullRequest)
    (vals : List (Nat × PullRequest))
    (hperm : List.Perm (pending_requests requests) vals) :
    List.Sublist (pending_issues issues requests) issues
  ∧ issueFieldPairs issues requests = (pending_issues issues requests).map renderIssue
  ∧ List.Perm (prFieldPairs vals) (prFieldPairs (pending_requests requests)) := by
  refine ⟨List.filter_sublist issues, rfl, ?_⟩
  exact (hperm.filterMap fun kv => renderPR kv.2).symm

/-- Witness for C4's amended theorem at a one-PR, one-issue fetch with the
identity iteration order. -/
theorem message_field_order_witness :
    List.Sublist
      (pending_issues [⟨3, "https://i", "T", "bob", "02/02/2024 09:00"⟩]
        [⟨1, some [⟨"alice"⟩], some "https://p1", some "Fix bug"⟩])
      [⟨3, "https://i", "T", "bob", "02/02/2024 09:00"⟩]
  ∧ issueFieldPairs [⟨3, "https://i", "T", "bob", "02/02/2024 09:00"⟩]
        [⟨1, some [⟨"alice"⟩], some "https://p1", some "Fix bug"⟩]
      = (pending_issues [⟨3, "https://i", "T", "bob", "02/02/2024 09:00"⟩]
          [⟨1, some [⟨"alice"⟩], some "https://p1", some "Fix bug"⟩]).map renderIssue
  ∧ List.Perm
      (prFieldPairs
        (pending_requests [⟨1, some [⟨"alice"⟩], some "https://p1", some "Fix bug"⟩]))
      (prFieldPairs
        (pending_requests [⟨1, some [⟨"alice"⟩], some "https://p1", some "Fix bug"⟩])) :=
  message_field_order [⟨3, "https://i", "T", "bob", "02/02/2024 09:00"⟩]
    [⟨1, some [⟨"alice"⟩], some "https://p1", some "Fix bug"⟩]
    (pending_requests [⟨1, some [⟨"alice"⟩], some "https://p1", some "Fix bug"⟩])
    (List.Perm.refl _)

/-! ## Claim C7: merging appends, never replaces -/

/-- C7: merging a well-formed discrete `repo=target` pair into a store that
already holds targets for that repository appends the new target: resolving
the repository afterwards yields exactly the original sequence followed by
the new target. -/
theorem merge_appends (parseUrl : String → Option Url) (store : SecretStore)
    (value r h : String) (repo hookUrl : Url) (l : List SlackHook)
    (hsplit : regexSplitEq value = some (r, h))
    (hr : parseUrl r = some repo) (hh : parseUrl h = some hookUrl)
    (hstore : store repo = some l) :
    (processHookVar parseUrl store value).1 repo = some (l ++ [⟨hookUrl⟩]) := by
  simp [processHookVar, hsplit, hr, hh, pushHook, hstore]

/-- Witness for C7, the spec's scenario: blob target `a` for the repo, then
the discrete pair adds target `b`; resolution yields `[a, b]`. -/
theorem merge_appends_witness :
    (processHookVar
        (fun s => if s = "https://github.com/o/r" then some ⟨"https://github.com/o/r"⟩
          else if s = "https://hooks.example/b" then some ⟨"https://hooks.example/b"⟩
          else none)
        (fun u => if u = ⟨"https://github.com/o/r"⟩
          then some [⟨⟨"https://hooks.example/a"⟩⟩] else none)
        "https://github.com/o/r=https://hooks.example/b").1
      ⟨"https://github.com/o/r"⟩
    = some [⟨⟨"https://hooks.example/a"⟩⟩, ⟨⟨"https://hooks.example/b"⟩⟩] :=
  merge_appends _ _ "https://github.com/o/r=https://hooks.example/b"
    "https://github.com/o/r" "https://hooks.example/b"
    ⟨"https://github.com/o/r"⟩ ⟨"https://hooks.example/b"⟩
    [⟨⟨"https://hooks.example/a"⟩⟩] (by decide) (by decide) (by decide) (by decide)

/-! ## Claim C8: where the discrete pair is split -/

/-- C8 counterexample: on `a=b=c` the greedy regex `(.*)=(.*)` captures
`a=b` and `c` — the split is at the last `=`, not the first, which would
give `a` and `b=c`. -/
theorem split_on_last_counterexample :
    regexSplitEq "a=b=c" = some ("a=b", "c")
  ∧ some (("a=b" : String), ("c" : String)) ≠ some (("a" : String), ("b=c" : String)) := by
  refine ⟨rfl, by decide⟩

/-- C8 amended: the entry is split at the *last* `=` of the first
newline-free line containing one (group 1 of `(.*)=(.*)` is greedy), and the
two halves are then parsed as the repository URL and the target URL
respectively. -/
theorem split_at_last_eq (parseUrl : String → Option Url) (store : SecretStore)
    (a b : List Char) (hb : '=' ∉ b) (ha : '\n' ∉ a) (hbn : '\n' ∉ b) :
    regexSplitEq (String.mk (a ++ '=' :: b)) = some (String.mk a, String.mk b)
  ∧ ∀ repo hookUrl, parseUrl (String.mk a) = some repo →
      parseUrl (String.mk b) = some hookUrl →
      processHookVar parseUrl store (String.mk (a ++ '=' :: b)) =
        (pushHook store repo ⟨hookUrl⟩, false) := by
  have hnl : '\n' ∉ (a ++ '=' :: b) := by
    intro hm
    rcases List.mem_append.1 hm with hm | hm
    · exact ha hm
    · rcases List.mem_cons.1 hm with hm | hm
      · exact absurd hm (by decide)
      · exact hbn hm
  have hsplit : regexSplitEq (String.mk (a ++ '=' :: b))
      = some (String.mk a, String.mk b) := by
    unfold regexSplitEq
    rw [show (String.mk (a ++ '=' :: b)).data = a ++ '=' :: b from rfl]
    rw [splitLines_of_not_mem _ hnl]
    simp [findEqLine, splitLastEq_append a b hb]
  exact ⟨hsplit, fun repo hookUrl hr hh => by simp [processHookVar, hsplit, hr, hh]⟩

/-- Witness for C8's amended theorem on the pair `r=h` with both halves
parsing. -/
theorem split_at_last_eq_witness :
    regexSplitEq (String.mk (['r'] ++ '=' :: ['h']))
      = some (String.mk ['r'], String.mk ['h'])
  ∧ processHookVar
      (fun s => if s = "r" then some ⟨"R"⟩ else if s = "h" then some ⟨"H"⟩ else none)
      emptySecrets (String.mk (['r'] ++ '=' :: ['h']))
    = (pushHook emptySecrets ⟨"R"⟩ ⟨⟨"H"⟩⟩, false) := by
  have h := split_at_last_eq
    (fun s => if s = "r" then some ⟨"R"⟩ else if s = "h" then some ⟨"H"⟩ else none)
    emptySecrets ['r'] ['h'] (by decide) (by decide) (by decide)
  exact ⟨h.1, h.2 ⟨"R"⟩ ⟨"H"⟩ (by decide) (by decide)⟩

/-! ## Claim C9: malformed discrete pairs are skipped atomically -/

/-- C9: for a malformed discrete pair — no `=` match, or either half failing
to parse as a URL — the merge warns (flag `true`), leaves the store exactly
unchanged, and the fold over the remaining pairs continues from the same
store. -/
theorem malformed_pair_skipped (parseUrl : String → Option Url)
    (store : SecretStore) (value : String)
    (hbad : regexSplitEq value = none ∨
      ∃ r h, regexSplitEq value = some (r, h) ∧
        (parseUrl r = none ∨ parseUrl h = none)) :
    processHookVar parseUrl store value = (store, true)
  ∧ ∀ rest, processHookVars parseUrl store (value :: rest)
      = processHookVars parseUrl store rest := by
  have h1 : processHookVar parseUrl store value = (store, true) := by
    rcases hbad with hnone | ⟨r, h, hsplit, hcase⟩
    · simp [processHookVar, hnone]
    · rcases hcase with hr | hh
      · simp [processHookVar, hsplit, hr]
      · cases hpr : parseUrl r with
        | none => simp [processHookVar, hsplit, hpr]
        | some repo => simp [processHookVar, hsplit, hpr, hh]
  exact ⟨h1, fun rest => by simp [processHookVars, h1]⟩

/-- Witness for C9: a value with no `=` is skipped and the fold proceeds to
the next pair from the unchanged store. -/
theorem malformed_pair_skipped_witness :
    processHookVar (fun _ => none) emptySecrets "not-a-pair" = (emptySecrets, true)
  ∧ processHookVars (fun _ => none) emptySecrets ["not-a-pair", "x=y"]
      = processHookVars (fun _ => none) emptySecrets ["x=y"] := by
  have h := malformed_pair_skipped (fun _ => none) emptySecrets "not-a-pair"
    (Or.inl (by decide))
  exact ⟨h.1, h.2 ["x=y"]⟩

/-! ## Claim C10: an absent secrets blob defaults to empty -/

/-- C10: when the QASTOR_SECRETS variable is absent, startup does not fail —
the blob is replaced by the empty JSON object and the store starts empty;
a present blob aborts startup exactly when it fails to deserialize. -/
theorem secrets_default_empty (parseSecrets : String → Option SecretStore)
    (hempty : parseSecrets "\x7b\x7d" = some emptySecrets) :
    loadSecrets parseSecrets none = Except.ok emptySecrets
  ∧ ∀ s, (loadSecrets parseSecrets (some s) = Except.error ()) ↔ parseSecrets s = none := by
  constructor
  · simp [loadSecrets, hempty]
  · intro s
    unfold loadSecrets
    cases hps : parseSecrets s <;> simp [hps]

/-- Witness for C10 with a concrete deserializer accepting only the empty
object. -/
theorem secrets_default_empty_witness :
    loadSecrets (fun t => if t = "\x7b\x7d" then some emptySecrets else none) none
      = Except.ok emptySecrets :=
  (secrets_default_empty
    (fun t => if t = "\x7b\x7d" then some emptySecrets else none) (by simp)).1

end Qastor
